import Mathlib

/-!
Verification of the organizational hierarchy integrity engine of the
`hris-system` repository.  The repository under review ships the client
(React pages, hooks, REST service wrappers) while the server-side engine
(CEO invariant manager, cascade reassignment, cycle detector, bulk import
resolver, audit recorder) is reached only through its REST callers.  Those
missing components are therefore modelled from the specification
(`spec.md` sections 3 and 4), while components present in the client
source (`csvHelpers.js`, `OrgChartPage.jsx`) are embedded directly from
the code.
-/

namespace HRIS

/-- Modelled from the spec: Employee record (spec section 3).  Only the
fields relevant to hierarchy integrity are kept: unique identifier,
unique email, display name, and the nullable manager reference (null only
for the CEO).  The remaining scalar fields (title, hire date, salary,
status, department/team references) play no role in the manager-graph
invariants. -/
structure Employee where
  id : Nat
  email : String
  name : String
  manager : Option Nat
deriving DecidableEq, Repr

/-- The employee store: the "arena of records" of spec section 9. -/
abbrev Store := List Employee

/-- Error taxonomy of spec section 7 (the cases the modelled operations
can raise). -/
inductive HrisError where
  | validationError
  | invariantViolation
  | notFoundError
  | duplicateError
deriving DecidableEq, Repr

/-- Ids present in a store. -/
def storeIds (s : Store) : List Nat :=
  s.map Employee.id

/-- Number of employees with a null manager reference (CEO candidates). -/
def ceoCount (s : Store) : Nat :=
  s.countP (fun e => e.manager = none)

/-- The current CEO: first employee found with a null manager (spec 4.2:
"let `current` = employee with null manager (may not exist)"). -/
def findCEO (s : Store) : Option Employee :=
  s.find? (fun e => e.manager = none)

/-- Well-formed store: identifiers are unique (spec section 3:
"identifier (unique)"). -/
def WF (s : Store) : Prop :=
  (s.map Employee.id).Nodup

instance : DecidablePred WF := fun s =>
  inferInstanceAs (Decidable ((s.map Employee.id).Nodup))

/-- Single-CEO invariant together with well-formedness (spec 4.2:
"exactly one employee has a null manager at all times once the
organization is non-empty"). -/
def Inv (s : Store) : Prop :=
  WF s ∧ (s ≠ [] → ceoCount s = 1)

/-- Modelled from the spec: `promote(employeeId)` of the CEO Invariant
Manager (spec 4.2).  Looks up the current CEO; no-op when promoting the
current CEO; otherwise nulls the promoted employee's manager, makes the
former CEO report to the promoted employee, and reassigns all remaining
direct reports of the former CEO to the promoted employee. -/
def promote (eid : Nat) (s : Store) : Except HrisError Store :=
  match s.find? (fun e => e.id = eid) with
  | none => .error .notFoundError
  | some _ =>
    match findCEO s with
    | some c =>
      if c.id = eid then .ok s
      else
        .ok (s.map (fun e =>
          if e.id = eid then { e with manager := none }
          else if e.id = c.id then { e with manager := some eid }
          else if e.manager = some c.id then { e with manager := some eid }
          else e))
    | none =>
      .ok (s.map (fun e => if e.id = eid then { e with manager := none } else e))

/-- Modelled from the spec: `replace(newEmployeeData)` of the CEO
Invariant Manager (spec 4.2).  Validation failure when the email already
exists or the required name is missing; the freshness of the generated
identifier is modelled as an explicit duplicate check.  Creates the new
employee with a null manager; if a current CEO exists, only that
employee's manager is set to the new employee's id — every other
employee's record is untouched. -/
def replace (newId : Nat) (email name : String) (s : Store) : Except HrisError Store :=
  if name = "" then .error .validationError
  else if s.any (fun e => e.email = email) then .error .validationError
  else if s.any (fun e => e.id = newId) then .error .duplicateError
  else
    let s' :=
      match findCEO s with
      | some c => s.map (fun e => if e.id = c.id then { e with manager := some newId } else e)
      | none => s
    .ok (s' ++ [⟨newId, email, name, none⟩])

/-- Modelled from the spec: employee creation (spec section 3 invariant
plus the client constraint that a manager is required for every non-CEO
employee; `OrgChartPage.jsx` invites creating an employee with no manager
only when no CEO exists).  A null manager is accepted only while no CEO
exists; a non-null manager must resolve to an existing employee. -/
def createEmployee (newId : Nat) (email name : String) (mgr : Option Nat) (s : Store) :
    Except HrisError Store :=
  if name = "" then .error .validationError
  else if s.any (fun e => e.email = email) then .error .duplicateError
  else if s.any (fun e => e.id = newId) then .error .duplicateError
  else
    match mgr with
    | none =>
      if s.any (fun e => e.manager = none) then .error .invariantViolation
      else .ok (s ++ [⟨newId, email, name, none⟩])
    | some m =>
      if s.any (fun e => e.id = m) then .ok (s ++ [⟨newId, email, name, some m⟩])
      else .error .notFoundError

/-- Modelled from the spec: `deleteEmployee(id)` with cascade
reassignment (spec 4.3) and the CEO deletion guard (spec 4.2): deleting
the employee with a null manager is rejected; otherwise every direct
report of the deleted employee is reassigned to the deleted employee's
manager and the record is removed. -/
def deleteEmployee (eid : Nat) (s : Store) : Except HrisError Store :=
  match s.find? (fun e => e.id = eid) with
  | none => .error .notFoundError
  | some e =>
    match e.manager with
    | none => .error .invariantViolation
    | some m =>
      .ok ((s.filter (fun x => ¬ x.id = eid)).map (fun x =>
        if x.manager = some eid then { x with manager := some m } else x))

/-- The mutating operations of the CEO Invariant Manager and Cascade
Reassignment Engine, as a syntax of operation requests. -/
inductive Op where
  | promoteOp (eid : Nat)
  | replaceOp (newId : Nat) (email name : String)
  | createOp (newId : Nat) (email name : String) (mgr : Option Nat)
  | deleteOp (eid : Nat)
deriving DecidableEq, Repr

/-- Apply one operation with roll-back-on-error semantics (spec section
7: a rejected operation persists no partial state — the store is left
unchanged). -/
def applyOp (op : Op) (s : Store) : Store :=
  let r : Except HrisError Store :=
    match op with
    | .promoteOp eid => promote eid s
    | .replaceOp newId email name => replace newId email name s
    | .createOp newId email name mgr => createEmployee newId email name mgr s
    | .deleteOp eid => deleteEmployee eid s
  match r with
  | .ok s' => s'
  | .error _ => s

/-- Apply a sequence of operations in order. -/
def runOps (ops : List Op) (s : Store) : Store :=
  ops.foldl (fun t op => applyOp op t) s

/-!
### Cycle Detector (spec 4.1)

The detector is parameterized by which reference field to follow, so the
graph is abstracted to a flat lookup table from node id to nullable
parent id (spec section 9: "an arena of records with parent-reference
indices").
-/

/-- A parent-reference graph: association list from node id to its
nullable parent id. -/
abbrev Graph := List (Nat × Option Nat)

/-- Parent lookup: the nullable parent reference of a node (nodes absent
from the arena have no parent). -/
def parentOf (g : Graph) (i : Nat) : Option Nat :=
  match g.find? (fun p => p.1 = i) with
  | some p => p.2
  | none => none

/-- Modelled from the spec: the walk of `wouldCreateCycle` (spec 4.1).
Follows parent references from the current node; reports a cycle when
the node being re-parented is encountered, or when a visited id repeats
before reaching a null parent (bounded-visit defence against
pre-existing corruption).  Fuel bounds the recursion; the top-level call
supplies more fuel than there are records, so fuel can only run out on a
corrupted (cyclic) arena, where running out is itself reported as a
cycle. -/
def cycleWalk (g : Graph) (nodeId : Nat) : Nat → Nat → List Nat → Bool
  | 0, _, _ => true
  | fuel + 1, cur, visited =>
    if cur = nodeId then true
    else if cur ∈ visited then true
    else
      match parentOf g cur with
      | none => false
      | some p => cycleWalk g nodeId fuel p (cur :: visited)

/-- Modelled from the spec: `wouldCreateCycle(graphKind, nodeId,
proposedParentId)` (spec 4.1).  Rejects self-parenting outright, then
walks the chain of parent references starting at the proposed parent. -/
def wouldCreateCycle (g : Graph) (nodeId proposedParentId : Nat) : Bool :=
  if proposedParentId = nodeId then true
  else cycleWalk g nodeId (g.length + 1) proposedParentId []

/-- The chain of parent references starting at `a` reaches a null parent
within `fuel` steps (termination of the upward walk). -/
def reachesNone (g : Graph) : Nat → Nat → Bool
  | 0, _ => false
  | fuel + 1, a =>
    match parentOf g a with
    | none => true
    | some p => reachesNone g fuel p

/-- Acyclic arena: from every node of the arena the parent chain reaches
a null parent within `g.length + 1` steps (the no-cycle invariant of
spec section 8). -/
def Acyclic (g : Graph) : Prop :=
  ∀ a ∈ g.map Prod.fst, reachesNone g (g.length + 1) a = true

instance : DecidablePred Acyclic := fun g =>
  inferInstanceAs
    (Decidable (∀ a ∈ g.map Prod.fst, reachesNone g (g.length + 1) a = true))

/-- Predicate: `target` is encountered within `fuel` steps while walking the chain
of parent references starting at `a` (before reaching a null parent).
This is the claim's own characterization of what constitutes a cycle. -/
def chainHits (g : Graph) (target : Nat) : Nat → Nat → Bool
  | 0, _ => false
  | fuel + 1, a =>
    if a = target then true
    else
      match parentOf g a with
      | none => false
      | some p => chainHits g target fuel p

/-!
### Bulk Import Resolver (spec 4.4)

Rows are flat string records as decoded from a CSV/Excel file; the empty
string denotes an absent optional field.
-/

/-- Modelled from the spec: one import row (spec 4.4 input fields). -/
structure Row where
  name : String
  email : String
  title : String
  hired_on : String
  salary : String
  status : String
  manager_email : String
  department_name : String
  team_name : String
deriving DecidableEq, Repr

/-- A per-row failure report entry (spec 4.4 result and the
`importService.js` JSDoc). -/
structure FailedRow where
  row_number : Nat
  email : String
  error_message : String
  row_data : Row
deriving DecidableEq, Repr

/-- The bulk import result record (spec 4.4 and `importService.js`):
`{total_rows, successful_imports, failed_rows, created_employee_ids,
warnings}`. -/
structure ImportResult where
  total_rows : Nat
  successful_imports : Nat
  failed_rows : List FailedRow
  created_employee_ids : List Nat
  warnings : List String
deriving DecidableEq, Repr

/-- All characters of a string are decimal digits. -/
def allDigits (x : String) : Bool :=
  x.toList.all (fun c => c.isDigit)

/-- Modelled from the spec: a salary is parseable as a non-negative
integer (spec 4.4 step 1). -/
def validSalary (x : String) : Bool :=
  x = "" || (x ≠ "" && allDigits x)

/-- Modelled from the spec: a hire date is parseable as a calendar date,
modelled as `YYYY-MM-DD` with month 1..12 and day 1..31 (spec 4.4 step
1). -/
def validDate (x : String) : Bool :=
  x = "" ||
    (match x.splitOn "-" with
     | [y, m, d] =>
       allDigits y && allDigits m && allDigits d &&
       y.length = 4 && m.length = 2 && d.length = 2 &&
       1 ≤ m.toNat! && m.toNat! ≤ 12 && 1 ≤ d.toNat! && d.toNat! ≤ 31
     | _ => false)

/-- Modelled from the spec: a well-formed email, modelled as containing
the character `@` (spec 4.4 step 1). -/
def wellFormedEmail (x : String) : Bool :=
  x.toList.contains '@'

/-- Modelled from the spec: the status field is `ACTIVE` or `ON_LEAVE`
when present (spec 4.4 step 1). -/
def validStatus (x : String) : Bool :=
  x = "" || x = "ACTIVE" || x = "ON_LEAVE"

/-- Names of the departments, teams and existing-employee emails visible
to the import (the store adapter's lookup capability, spec section 6). -/
structure ImportEnv where
  store : Store
  departmentNames : List String
  teamNames : List String
deriving Repr

/-- Modelled from the spec: row-level validation (spec 4.4 step 1).
Returns the error message of the first violated rule, or none.  Checks:
required name; well-formed email neither present in the store nor
duplicated within the batch; valid status; parseable hire date;
non-negative integer salary; referenced department and team resolve by
exact case-sensitive name. -/
def rowError (env : ImportEnv) (batch : List Row) (r : Row) : Option String :=
  if r.name = "" then some "missing required field: name"
  else if r.email ≠ "" && !wellFormedEmail r.email then some "invalid email"
  else if r.email ≠ "" && env.store.any (fun e => e.email = r.email) then
    some "duplicate email: already exists"
  else if r.email ≠ "" && batch.countP (fun x => x.email = r.email) ≥ 2 then
    some "duplicate email: repeated in batch"
  else if !validStatus r.status then some "invalid status"
  else if !validDate r.hired_on then some "invalid date format"
  else if !validSalary r.salary then some "invalid salary"
  else if r.department_name ≠ "" && !env.departmentNames.contains r.department_name then
    some "department not found"
  else if r.team_name ≠ "" && !env.teamNames.contains r.team_name then
    some "team not found"
  else none

/-- Row numbers are 1-based positions in the uploaded file. -/
def numberRows (batch : List Row) : List (Nat × Row) :=
  (List.range batch.length).zip batch |>.map (fun p => (p.1 + 1, p.2))

/-- The failure report from row-level validation (spec 4.4 step 1). -/
def rowErrors (env : ImportEnv) (batch : List Row) : List FailedRow :=
  (numberRows batch).filterMap (fun p =>
    match rowError env batch p.2 with
    | some msg => some ⟨p.1, p.2.email, msg, p.2⟩
    | none => none)

/-- A row depends on another batch row: its `manager_email` is non-empty
and matches the email of a row of the batch that is not yet created
(spec 4.4 step 2: edge row to manager when `manager_email` matches
another row in the batch). -/
def dependsOnBatch (pending : List (Nat × Row)) (r : Row) : Bool :=
  r.manager_email ≠ "" && pending.any (fun p => p.2.email = r.manager_email)

/-- One round of Kahn's algorithm over the batch subgraph: rows whose
manager is not a still-pending batch row are ready (spec 4.4 step 3). -/
def kahnReady (pending : List (Nat × Row)) : List (Nat × Row) × List (Nat × Row) :=
  (pending.filter (fun p => !dependsOnBatch pending p.2),
   pending.filter (fun p => dependsOnBatch pending p.2))

/-- Modelled from the spec: repeated unlocking of newly-ready rows
(Kahn's algorithm, spec 4.4 step 3 and section 9).  Returns the creation
order and the rows left in a dependency cycle. -/
def kahnOrder : Nat → List (Nat × Row) → List (Nat × Row) × List (Nat × Row)
  | 0, pending => ([], pending)
  | fuel + 1, pending =>
    let (ready, deferred) := kahnReady pending
    if ready.isEmpty then ([], pending)
    else
      let (ord, stuck) := kahnOrder fuel deferred
      (ready ++ ord, stuck)

/-- Modelled from the spec: batch dependency-cycle detection (spec 4.4
step 2).  The rows that Kahn's algorithm can never unlock are exactly
the rows involved in (or downstream of) a circular manager dependency;
each is reported as a batch-level error naming the involved emails. -/
def cycleErrors (batch : List Row) : List FailedRow :=
  let stuck := (kahnOrder (batch.length + 1) (numberRows batch)).2
  stuck.map (fun p =>
    ⟨p.1, p.2.email,
     "circular manager dependency involving: " ++
       String.intercalate ", " (stuck.map (fun q => q.2.email)), p.2⟩)

/-- Fresh identifier generation for created records: one past the
largest id in use. -/
def freshId (s : Store) : Nat :=
  (s.map Employee.id).foldl (fun a b => max a b) 0 + 1

/-- Modelled from the spec: create the validated batch in topological
order (spec 4.4 step 4, commit phase); each row's manager reference is
resolved by email against the store as extended so far. -/
def commitRows (ordered : List (Nat × Row)) (s : Store) : Store × List Nat :=
  ordered.foldl
    (fun acc p =>
      let t := acc.1
      let nid := freshId t
      let mgr := (t.find? (fun e => e.email = p.2.manager_email)).map Employee.id
      (t ++ [⟨nid, p.2.email, p.2.name, mgr⟩], acc.2 ++ [nid]))
    (s, [])

/-- Modelled from the spec: the Bulk Import Resolver entry point (spec
4.4).  Validates every row, detects batch dependency cycles, and applies
the all-or-nothing commit policy: any error fails the whole batch with a
per-row failure report and leaves the store unchanged; otherwise rows
are created in topological order. -/
def importEmployees (env : ImportEnv) (batch : List Row) : Store × ImportResult :=
  let failures := rowErrors env batch ++ cycleErrors batch
  if failures.isEmpty then
    let ordered := (kahnOrder (batch.length + 1) (numberRows batch)).1
    let sc := commitRows ordered env.store
    (sc.1, ⟨batch.length, sc.2.length, [], sc.2, []⟩)
  else
    (env.store, ⟨batch.length, 0, failures, [], []⟩)

/-!
### Audit Recorder (spec 4.5)

State snapshots are shallow copies of the employee record at the moment
of mutation.
-/

/-- Audit change types (spec section 3). -/
inductive ChangeType where
  | CREATE
  | UPDATE
  | DELETE
  | BULK_UPDATE
deriving DecidableEq, Repr

/-- An audit log entry (spec section 3): entity reference, change type,
previous-state snapshot (null on create) and new-state snapshot (null on
delete). -/
structure AuditEntry where
  entityType : String
  entityId : Nat
  changeType : ChangeType
  previousState : Option Employee
  newState : Option Employee
deriving DecidableEq, Repr

/-- Modelled from the spec: `record(entityType, entityId, changeType,
previousState, newState)` of the Audit Recorder (spec 4.5), specialized
to employee snapshots. -/
def auditRecord (eid : Nat) (ct : ChangeType) (prev nxt : Option Employee) : AuditEntry :=
  ⟨"EMPLOYEE", eid, ct, prev, nxt⟩

/-- Modelled from the spec: employee creation instrumented with the
Audit Recorder — exactly one CREATE entry with a null previous state
(spec 4.5). -/
def createWithAudit (newId : Nat) (email name : String) (mgr : Option Nat) (s : Store) :
    Except HrisError (Store × List AuditEntry) :=
  (createEmployee newId email name mgr s).map
    (fun t => (t, [auditRecord newId .CREATE none (some ⟨newId, email, name, mgr⟩)]))

/-- Modelled from the spec: a scalar field update (employee rename)
instrumented with the Audit Recorder — exactly one UPDATE entry with
both snapshots populated (spec 4.5). -/
def updateWithAudit (eid : Nat) (newName : String) (s : Store) :
    Except HrisError (Store × List AuditEntry) :=
  match s.find? (fun e => e.id = eid) with
  | none => .error .notFoundError
  | some e =>
    .ok (s.map (fun x => if x.id = eid then { x with name := newName } else x),
         [auditRecord eid .UPDATE (some e) (some { e with name := newName })])

/-- Modelled from the spec: cascading employee deletion instrumented
with the Audit Recorder (spec 4.3): one UPDATE entry per reassigned
direct report, plus one DELETE entry (null new state) for the removed
record. -/
def deleteWithAudit (eid : Nat) (s : Store) :
    Except HrisError (Store × List AuditEntry) :=
  match s.find? (fun e => e.id = eid) with
  | none => .error .notFoundError
  | some e =>
    match e.manager with
    | none => .error .invariantViolation
    | some m =>
      let affected := (s.filter (fun x => ¬ x.id = eid)).filter
        (fun x => x.manager = some eid)
      .ok ((s.filter (fun x => ¬ x.id = eid)).map (fun x =>
             if x.manager = some eid then { x with manager := some m } else x),
           affected.map (fun d =>
             auditRecord d.id .UPDATE (some d) (some { d with manager := some m })) ++
           [auditRecord eid .DELETE (some e) none])

/-!
### OrgChartPage module scope (embedded from
`src/client/src/pages/OrgChartPage.jsx`)

The identifiers bound in the module body of `OrgChartPage.jsx`: the
imported bindings, the destructuring of the `useCEO()` result, the
`useState`/`useRef` bindings and the locally declared handler functions,
transcribed from the source.
-/

/-- The fields returned by the `useCEO` hook
(`src/client/src/hooks/useCEO.js`): `{ ceo, loading, error, refetch }`. -/
def useCEOReturnedFields : List String :=
  ["ceo", "loading", "error", "refetch"]

/-- The fields `OrgChartPage` destructures from `useCEO()`:
`const { ceo, loading, error } = useCEO();`. -/
def orgChartDestructuredFields : List String :=
  ["ceo", "loading", "error"]

/-- Every identifier bound in the scope of `OrgChartPage.jsx`'s
component body: module imports, the `useCEO` destructuring, state
setters, refs and handler declarations (transcribed from the source). -/
def orgChartPageScope : List String :=
  ["useState", "useRef", "Box", "Typography", "Paper", "CircularProgress",
   "Alert", "useCEO", "OrgChart", "DetailModal", "EmployeeDetail",
   "TeamDetail", "DepartmentDetail", "OrgChartPage"] ++
  orgChartDestructuredFields ++
  ["selectedEmployeeId", "setSelectedEmployeeId",
   "selectedTeamId", "setSelectedTeamId",
   "selectedDepartmentId", "setSelectedDepartmentId",
   "employeeEditMode", "setEmployeeEditMode",
   "employeeSaving", "setEmployeeSaving",
   "teamEditMode", "setTeamEditMode",
   "teamSaving", "setTeamSaving",
   "deptEditMode", "setDeptEditMode",
   "deptSaving", "setDeptSaving",
   "employeeDetailRef", "teamDetailRef", "deptDetailRef",
   "handleNavigate",
   "handleEmployeeEdit", "handleEmployeeSave", "handleEmployeeCancel",
   "handleTeamEdit", "handleTeamSave", "handleTeamCancel",
   "handleDeptEdit", "handleDeptSave", "handleDeptCancel",
   "handleEmployeeDelete", "handleEmployeeDeleteSuccess",
   "handleTeamDelete", "handleTeamDeleteSuccess",
   "handleDeptDelete", "handleDeptDeleteSuccess",
   "handleEmployeeClick"]

/-- The identifiers invoked by `handleEmployeeDeleteSuccess` in
`OrgChartPage.jsx` (transcribed from its body). -/
def handleEmployeeDeleteSuccessCalls : List String :=
  ["setSelectedEmployeeId", "setEmployeeEditMode", "loadCEO"]

/-- The identifiers invoked by `handleTeamDeleteSuccess`. -/
def handleTeamDeleteSuccessCalls : List String :=
  ["setSelectedTeamId", "setTeamEditMode", "loadCEO"]

/-- The identifiers invoked by `handleDeptDeleteSuccess`. -/
def handleDeptDeleteSuccessCalls : List String :=
  ["setSelectedDepartmentId", "setDeptEditMode", "loadCEO"]

/-- Evaluating a JavaScript function body raises a `ReferenceError` as
soon as it invokes an identifier that is bound nowhere in the enclosing
scope chain. -/
def raisesReferenceError (calls scope : List String) : Bool :=
  calls.any (fun n => !scope.contains n)

/-!
### CSV helpers (embedded from `src/client/src/utils/csvHelpers.js`)

Cells are modelled as character lists; a JS string maps to its list of
characters, and `null`/`undefined` cells to `none`.
-/

/-- The test of `escapeCSVCell`: the cell contains a comma, double quote
or newline (`stringCell.includes(...)` in the source). -/
def needsQuoting (s : List Char) : Bool :=
  s.contains ',' || s.contains '"' || s.contains '\n'

/-- The source applies a global regex replace doubling every double quote
character; this is that replacement, character by character. -/
def doubleQuotes : List Char → List Char
  | [] => []
  | c :: rest =>
    if c = '"' then '"' :: '"' :: doubleQuotes rest
    else c :: doubleQuotes rest

/-- Function `escapeCSVCell` from `csvHelpers.js`, string case: unchanged unless
the cell contains a comma, double quote or newline, in which case it is
wrapped in double quotes with embedded double quotes doubled. -/
def escapeCSVCell (s : List Char) : List Char :=
  if needsQuoting s then '"' :: (doubleQuotes s ++ ['"'])
  else s

/-- Function `escapeCSVCell` from `csvHelpers.js`, including the `null`/
`undefined` guard, which returns the empty string. -/
def escapeCSVCellOpt : Option (List Char) → List Char
  | none => []
  | some s => escapeCSVCell s

/-- RFC 4180 un-doubling of quotes inside a quoted field: each `""` pair
collapses to one `"`. -/
def undoubleQuotes : List Char → List Char
  | [] => []
  | [c] => [c]
  | c1 :: c2 :: rest =>
    if c1 = '"' ∧ c2 = '"' then '"' :: undoubleQuotes rest
    else c1 :: undoubleQuotes (c2 :: rest)
termination_by l => l.length

/-- RFC 4180 parsing of a single CSV cell: a field beginning and ending
with a double quote is unwrapped and its doubled quotes collapsed; any
other field stands for itself. -/
def parseCSVCell (s : List Char) : List Char :=
  match s with
  | [] => []
  | c :: rest =>
    if c = '"' ∧ rest.getLast? = some '"' then undoubleQuotes rest.dropLast
    else c :: rest

/-- Lookup-by-id over the store (the store adapter's `get`, spec section
6). -/
def lookupEmp (s : Store) (i : Nat) : Option Employee :=
  s.find? (fun e => e.id = i)

/-- The null-snapshot discipline of audit entries (spec 4.5 and spec
section 3): the previous-state snapshot is null exactly for CREATE and
the new-state snapshot is null exactly for DELETE. -/
def auditNullPattern (a : AuditEntry) : Prop :=
  (a.previousState = none ↔ a.changeType = ChangeType.CREATE) ∧
  (a.newState = none ↔ a.changeType = ChangeType.DELETE)

/-!
### Store helper lemmas
-/

/-- In a well-formed store, lookup by a member's id finds that member. -/
theorem lookupEmp_of_mem {s : Store} {e : Employee} (hwf : WF s) (hm : e ∈ s) :
    lookupEmp s e.id = some e := by
  have hsome : (s.find? (fun x => x.id = e.id)).isSome := by
    rw [List.find?_isSome]
    exact ⟨e, hm, by simp⟩
  obtain ⟨x, hx⟩ := Option.isSome_iff_exists.mp hsome
  have hxid : x.id = e.id := by simpa using List.find?_some hx
  have hxm : x ∈ s := List.mem_of_find?_eq_some hx
  have : x = e := List.inj_on_of_nodup_map hwf hxm hm hxid
  simpa [lookupEmp, this] using hx

/-- In a well-formed store, exactly one record carries a member's id. -/
theorem countP_id_eq_one {s : Store} {e : Employee} (hwf : WF s) (hm : e ∈ s) :
    s.countP (fun x => x.id = e.id) = 1 := by
  have hmap : (s.map Employee.id).countP (fun i => i = e.id) =
      s.countP (fun x => x.id = e.id) := by
    rw [List.countP_map]
    rfl
  have hcount : (s.map Employee.id).count e.id = 1 := by
    have hle := List.nodup_iff_count_le_one.mp hwf e.id
    have hmem : e.id ∈ s.map Employee.id := List.mem_map_of_mem Employee.id hm
    have hpos : 0 < (s.map Employee.id).count e.id := List.count_pos_iff.mpr hmem
    omega
  have hbridge : (s.map Employee.id).count e.id =
      (s.map Employee.id).countP (fun i => i = e.id) := by
    rw [List.count_eq_countP]
    exact List.countP_congr (fun x _ => by simp)
  omega

/-- When exactly one employee has a null manager, any two null-manager
members coincide. -/
theorem ceo_unique {s : Store} {c x : Employee} (h1 : ceoCount s = 1)
    (hc : c ∈ s) (hcm : c.manager = none) (hx : x ∈ s) (hxm : x.manager = none) :
    x = c := by
  have hlen : (s.filter (fun e => e.manager = none)).length = 1 := by
    have := (List.countP_eq_length_filter (fun e => decide (e.manager = none)) s).symm
    unfold ceoCount at h1
    omega
  obtain ⟨a, ha⟩ := List.length_eq_one.mp hlen
  have hcmem : c ∈ s.filter (fun e => e.manager = none) :=
    List.mem_filter.mpr ⟨hc, by simp [hcm]⟩
  have hxmem : x ∈ s.filter (fun e => e.manager = none) :=
    List.mem_filter.mpr ⟨hx, by simp [hxm]⟩
  rw [ha] at hcmem hxmem
  simp only [List.mem_singleton] at hcmem hxmem
  rw [hxmem, hcmem]

/-- Membership and null manager of the found CEO. -/
theorem findCEO_mem {s : Store} {c : Employee} (h : findCEO s = some c) :
    c ∈ s ∧ c.manager = none := by
  refine ⟨List.mem_of_find?_eq_some h, ?_⟩
  simpa using List.find?_some h

/-- A store with exactly one null-manager employee has a found CEO. -/
theorem findCEO_isSome_of_count {s : Store} (h : ceoCount s = 1) :
    ∃ c, findCEO s = some c := by
  have hpos : 0 < s.countP (fun e => e.manager = none) := by
    unfold ceoCount at h; omega
  obtain ⟨a, ham, hap⟩ := List.countP_pos_iff.mp hpos
  have : (s.find? (fun e => e.manager = none)).isSome :=
    List.find?_isSome.mpr ⟨a, ham, hap⟩
  obtain ⟨c, hc⟩ := Option.isSome_iff_exists.mp this
  exact ⟨c, hc⟩

/-!
### CSV escaping lemmas
-/

/-- Un-doubling after a non-quote head character. -/
theorem undoubleQuotes_cons {c : Char} (l : List Char) (h : ¬ c = '"') :
    undoubleQuotes (c :: l) = c :: undoubleQuotes l := by
  cases l with
  | nil => simp [undoubleQuotes]
  | cons d rest => simp [undoubleQuotes, h]

/-- Un-doubling inverts quote doubling. -/
theorem undoubleQuotes_doubleQuotes (s : List Char) :
    undoubleQuotes (doubleQuotes s) = s := by
  induction s with
  | nil => simp [doubleQuotes, undoubleQuotes]
  | cons c t ih =>
    by_cases hc : c = '"'
    · subst hc
      simp [doubleQuotes, undoubleQuotes, ih]
    · rw [doubleQuotes]
      simp only [hc, if_false]
      rw [undoubleQuotes_cons _ hc, ih]

/-!
### Cycle detector lemmas
-/

/-- Termination of the upward walk is monotone in the fuel. -/
theorem reachesNone_mono (g : Graph) :
    ∀ n a, reachesNone g n a = true → reachesNone g (n + 1) a = true := by
  intro n
  induction n with
  | zero =>
    intro a h
    simp [reachesNone] at h
  | succ n0 ih =>
    intro a h
    simp only [reachesNone] at h ⊢
    cases hpar : parentOf g a with
    | none => simp [hpar]
    | some p =>
      simp only [hpar] at h ⊢
      exact ih p h

/-- A node on a terminating chain heads a terminating chain itself. -/
theorem reachesNone_of_chainHits (g : Graph) (t : Nat) :
    ∀ m a, chainHits g t m a = true →
      ∀ n, reachesNone g n a = true → reachesNone g n t = true := by
  intro m
  induction m with
  | zero =>
    intro a h
    simp [chainHits] at h
  | succ m0 ih =>
    intro a h n hn
    simp only [chainHits] at h
    by_cases hat : a = t
    · rwa [hat] at hn
    · rw [if_neg hat] at h
      cases hpar : parentOf g a with
      | none =>
        rw [hpar] at h
        exact absurd h (by simp)
      | some p =>
        rw [hpar] at h
        cases n with
        | zero => simp [reachesNone] at hn
        | succ n0 =>
          have hn0 : reachesNone g n0 p = true := by
            simp only [reachesNone, hpar] at hn
            exact hn
          exact reachesNone_mono g n0 t (ih p h n0 hn0)

/-- On a terminating chain, the chain of the parent never returns to the
node itself (no cycle through a node whose walk dies out). -/
theorem not_chainHits_parent (g : Graph) :
    ∀ n cur p, reachesNone g n cur = true → parentOf g cur = some p →
      ∀ k, chainHits g cur k p = false := by
  intro n
  induction n using Nat.strong_induction_on with
  | _ n ih =>
    intro cur p hr hpar k
    cases hck : chainHits g cur k p with
    | false => rfl
    | true =>
      exfalso
      cases n with
      | zero => simp [reachesNone] at hr
      | succ n0 =>
        have hrp : reachesNone g n0 p = true := by
          simp only [reachesNone, hpar] at hr
          exact hr
        have hrc : reachesNone g n0 cur = true :=
          reachesNone_of_chainHits g cur k p hck n0 hrp
        have hfalse := ih n0 (Nat.lt_succ_self n0) cur p hrc hpar k
        rw [hck] at hfalse
        exact Bool.noConfusion hfalse

/-- On a terminating chain, the bounded-visit walk agrees with plain
chain membership, provided no visited node lies on the current chain. -/
theorem cycleWalk_eq_chainHits (g : Graph) (nodeId : Nat) :
    ∀ fuel cur visited,
      reachesNone g fuel cur = true →
      (∀ v ∈ visited, ∀ k, chainHits g v k cur = false) →
      cycleWalk g nodeId fuel cur visited = chainHits g nodeId fuel cur := by
  intro fuel
  induction fuel with
  | zero =>
    intro cur visited hr _
    simp [reachesNone] at hr
  | succ f ih =>
    intro cur visited hr hinv
    simp only [cycleWalk, chainHits]
    by_cases hcn : cur = nodeId
    · simp [hcn]
    · rw [if_neg hcn, if_neg hcn]
      have hcv : cur ∉ visited := by
        intro hmem
        have hone := hinv cur hmem 1
        simp [chainHits] at hone
      rw [if_neg hcv]
      cases hpar : parentOf g cur with
      | none => rfl
      | some p =>
        have hrp : reachesNone g f p = true := by
          simp only [reachesNone, hpar] at hr
          exact hr
        have hinv' : ∀ v ∈ cur :: visited, ∀ k, chainHits g v k p = false := by
          intro v hv k
          rcases List.mem_cons.mp hv with rfl | hv'
          · exact not_chainHits_parent g (f + 1) v p hr hpar k
          · cases hck : chainHits g v k p with
            | false => rfl
            | true =>
              exfalso
              have hstep : chainHits g v (k + 1) cur = true := by
                simp only [chainHits]
                by_cases hcveq : cur = v
                · simp [hcveq]
                · rw [if_neg hcveq, hpar]
                  exact hck
              have hfalse := hinv v hv' (k + 1)
              rw [hstep] at hfalse
              exact Bool.noConfusion hfalse
        exact ih p (cur :: visited) hrp hinv'

/-- In an acyclic arena every chain terminates within the fuel budget of
the detector. -/
theorem reachesNone_of_acyclic {g : Graph} (h : Acyclic g) (a : Nat) :
    reachesNone g (g.length + 1) a = true := by
  by_cases ha : a ∈ g.map Prod.fst
  · exact h a ha
  · have hpar : parentOf g a = none := by
      unfold parentOf
      cases hf : g.find? (fun p => p.1 = a) with
      | none => rfl
      | some p =>
        exfalso
        apply ha
        have hpid : p.1 = a := by simpa using List.find?_some hf
        exact hpid ▸ List.mem_map_of_mem Prod.fst (List.mem_of_find?_eq_some hf)
    simp [reachesNone, hpar]

/-!
### Invariant preservation lemmas
-/

/-- An id-preserving rewrite keeps the id column unchanged. -/
theorem map_id_of_preserve {s : Store} {f : Employee → Employee}
    (hf : ∀ e, (f e).id = e.id) :
    (s.map f).map Employee.id = s.map Employee.id := by
  rw [List.map_map]
  exact List.map_congr_left (fun e _ => hf e)

/-- Well-formedness survives an id-preserving rewrite. -/
theorem wf_map {s : Store} {f : Employee → Employee}
    (hf : ∀ e, (f e).id = e.id) (hwf : WF s) : WF (s.map f) := by
  unfold WF
  rw [map_id_of_preserve hf]
  exact hwf

/-- Well-formedness survives filtering. -/
theorem wf_filter {s : Store} (p : Employee → Bool) (hwf : WF s) :
    WF (s.filter p) :=
  List.Nodup.sublist (List.Sublist.map Employee.id (List.filter_sublist s)) hwf

/-- Well-formedness survives appending a record with a fresh id. -/
theorem wf_append_fresh {s : Store} {x : Employee}
    (hwf : WF s) (hx : x.id ∉ s.map Employee.id) : WF (s ++ [x]) := by
  unfold WF
  rw [List.map_append]
  rw [List.nodup_append]
  refine ⟨hwf, List.nodup_singleton _, ?_⟩
  intro a ha hb
  simp only [List.map_cons, List.map_nil, List.mem_singleton] at hb
  subst hb
  exact hx ha

/-- A store where no member has a null manager has zero CEO candidates. -/
theorem ceoCount_eq_zero {s : Store} (h : ∀ x ∈ s, ¬ x.manager = none) :
    ceoCount s = 0 := by
  unfold ceoCount
  rw [List.countP_eq_zero]
  intro a ha
  simpa using h a ha

/-- CEO counting distributes over append. -/
theorem ceoCount_append (s₁ s₂ : Store) :
    ceoCount (s₁ ++ s₂) = ceoCount s₁ + ceoCount s₂ :=
  List.countP_append _ _ _

/-- Promotion preserves the single-CEO invariant. -/
theorem inv_promote {s : Store} (eid : Nat) (h : Inv s) :
    Inv (applyOp (Op.promoteOp eid) s) := by
  obtain ⟨hwf, hone⟩ := h
  show Inv (match promote eid s with | .ok t => t | .error _ => s)
  cases hp : promote eid s with
  | error err => exact ⟨hwf, hone⟩
  | ok t =>
    unfold promote at hp
    cases hfind : s.find? (fun e => e.id = eid) with
    | none => simp only [hfind] at hp; exact absurd hp (by simp)
    | some e0 =>
      simp only [hfind] at hp
      have he0mem : e0 ∈ s := List.mem_of_find?_eq_some hfind
      have he0id : e0.id = eid := by simpa using List.find?_some hfind
      have hsne : s ≠ [] := List.ne_nil_of_mem he0mem
      have hone' : ceoCount s = 1 := hone hsne
      obtain ⟨c, hceo⟩ := findCEO_isSome_of_count hone'
      obtain ⟨hcmem, hcnone⟩ := findCEO_mem hceo
      simp only [hceo] at hp
      by_cases hcid : c.id = eid
      · rw [if_pos hcid] at hp
        cases hp
        exact ⟨hwf, hone⟩
      · rw [if_neg hcid] at hp
        cases hp
        have hid : ∀ x : Employee,
            ((fun e =>
              if e.id = eid then { e with manager := none }
              else if e.id = c.id then { e with manager := some eid }
              else if e.manager = some c.id then { e with manager := some eid }
              else e) x).id = x.id := by
          intro x
          by_cases h1 : x.id = eid
          · simp [h1]
          · by_cases h2 : x.id = c.id
            · simp [h1, h2, hcid]
            · by_cases h3 : x.manager = some c.id <;> simp [h1, h2, h3]
        refine ⟨wf_map hid hwf, fun _ => ?_⟩
        unfold ceoCount
        rw [List.countP_map]
        have hcongr : ∀ x ∈ s,
            (((fun e : Employee => decide (e.manager = none)) ∘ (fun e =>
              if e.id = eid then { e with manager := none }
              else if e.id = c.id then { e with manager := some eid }
              else if e.manager = some c.id then { e with manager := some eid }
              else e)) x = true) ↔ (decide (x.id = eid) = true) := by
          intro x hx
          simp only [Function.comp, decide_eq_true_eq]
          by_cases h1 : x.id = eid
          · simp [h1]
          · by_cases h2 : x.id = c.id
            · simp [h1, h2, hcid]
            · by_cases h3 : x.manager = some c.id
              · simp [h1, h2, h3]
              · simp only [h1, h2, h3, if_false]
                constructor
                · intro hxnone
                  exact absurd (congrArg Employee.id
                    (ceo_unique hone' hcmem hcnone hx hxnone)) h2
                · intro hfalse
                  exact hfalse.elim
        rw [List.countP_congr hcongr]
        have := countP_id_eq_one hwf he0mem
        rw [he0id] at this
        exact this

/-- CEO replacement preserves the single-CEO invariant. -/
theorem inv_replace {s : Store} (newId : Nat) (email name : String) (h : Inv s) :
    Inv (applyOp (Op.replaceOp newId email name) s) := by
  obtain ⟨hwf, hone⟩ := h
  show Inv (match replace newId email name s with | .ok t => t | .error _ => s)
  cases hp : replace newId email name s with
  | error err => exact ⟨hwf, hone⟩
  | ok t =>
    unfold replace at hp
    split at hp
    · exact absurd hp (by simp)
    split at hp
    · exact absurd hp (by simp)
    split at hp
    · exact absurd hp (by simp)
    rename_i hname hemail hfresh0
    have hfresh : newId ∉ s.map Employee.id := by
      intro hmem
      apply hfresh0
      rw [List.any_eq_true]
      obtain ⟨x, hx, hxid⟩ := List.mem_map.mp hmem
      exact ⟨x, hx, by simp [hxid]⟩
    cases hceo : findCEO s with
    | some c =>
      obtain ⟨hcmem, hcnone⟩ := findCEO_mem hceo
      have hsne : s ≠ [] := List.ne_nil_of_mem hcmem
      have hone' : ceoCount s = 1 := hone hsne
      simp only [hceo] at hp
      cases hp
      have hid : ∀ x : Employee,
          ((fun e => if e.id = c.id then { e with manager := some newId } else e) x).id
            = x.id := by
        intro x
        by_cases h1 : x.id = c.id <;> simp [h1]
      refine ⟨?_, fun _ => ?_⟩
      · apply wf_append_fresh (wf_map hid hwf)
        rw [map_id_of_preserve hid]
        exact hfresh
      · rw [ceoCount_append]
        have hz : ceoCount (s.map
            (fun e => if e.id = c.id then { e with manager := some newId } else e)) = 0 := by
          unfold ceoCount
          rw [List.countP_map, List.countP_eq_zero]
          intro x hx
          simp only [Function.comp, decide_eq_true_eq]
          by_cases h1 : x.id = c.id
          · simp [h1]
          · simp only [h1, if_false]
            intro hxnone
            exact h1 (congrArg Employee.id (ceo_unique hone' hcmem hcnone hx hxnone))
        rw [hz]
        simp [ceoCount]
    | none =>
      simp only [hceo] at hp
      cases hp
      have hz : ceoCount s = 0 := by
        apply ceoCount_eq_zero
        intro x hx
        have := List.find?_eq_none.mp hceo x hx
        simpa using this
      refine ⟨wf_append_fresh hwf hfresh, fun _ => ?_⟩
      rw [ceoCount_append, hz]
      simp [ceoCount]

/-- Employee creation preserves the single-CEO invariant. -/
theorem inv_create {s : Store} (newId : Nat) (email name : String)
    (mgr : Option Nat) (h : Inv s) :
    Inv (applyOp (Op.createOp newId email name mgr) s) := by
  obtain ⟨hwf, hone⟩ := h
  show Inv (match createEmployee newId email name mgr s with | .ok t => t | .error _ => s)
  cases hp : createEmployee newId email name mgr s with
  | error err => exact ⟨hwf, hone⟩
  | ok t =>
    unfold createEmployee at hp
    split at hp
    · exact absurd hp (by simp)
    split at hp
    · exact absurd hp (by simp)
    split at hp
    · exact absurd hp (by simp)
    rename_i hname hemail hfresh0
    have hfresh : newId ∉ s.map Employee.id := by
      intro hmem
      apply hfresh0
      rw [List.any_eq_true]
      obtain ⟨x, hx, hxid⟩ := List.mem_map.mp hmem
      exact ⟨x, hx, by simp [hxid]⟩
    cases mgr with
    | none =>
      replace hp : (if (s.any (fun e => e.manager = none)) = true then
          Except.error HrisError.invariantViolation
        else Except.ok (s ++ [⟨newId, email, name, none⟩])) = Except.ok t := hp
      by_cases hnoceo : (s.any (fun e => e.manager = none)) = true
      · rw [if_pos hnoceo] at hp
        exact absurd hp (by simp)
      rw [if_neg hnoceo] at hp
      cases hp
      have hz : ceoCount s = 0 := by
        apply ceoCount_eq_zero
        intro x hx hxnone
        apply hnoceo
        rw [List.any_eq_true]
        exact ⟨x, hx, by simp [hxnone]⟩

      refine ⟨wf_append_fresh hwf hfresh, fun _ => ?_⟩
      rw [ceoCount_append, hz]
      simp [ceoCount]
    | some m =>
      replace hp : (if (s.any (fun e => e.id = m)) = true then
          Except.ok (s ++ [⟨newId, email, name, some m⟩])
        else Except.error HrisError.notFoundError) = Except.ok t := hp
      by_cases hmex : (s.any (fun e => e.id = m)) = true
      case neg =>
        rw [if_neg hmex] at hp
        exact absurd hp (by simp)
      rw [if_pos hmex] at hp
      cases hp
      obtain ⟨x, hx, -⟩ := List.any_eq_true.mp hmex
      have hsne : s ≠ [] := List.ne_nil_of_mem hx
      refine ⟨wf_append_fresh hwf hfresh, fun _ => ?_⟩
      rw [ceoCount_append, hone hsne]
      simp [ceoCount]

/-- Cascading employee deletion preserves the single-CEO invariant. -/
theorem inv_delete {s : Store} (eid : Nat) (h : Inv s) :
    Inv (applyOp (Op.deleteOp eid) s) := by
  obtain ⟨hwf, hone⟩ := h
  show Inv (match deleteEmployee eid s with | .ok t => t | .error _ => s)
  cases hp : deleteEmployee eid s with
  | error err => exact ⟨hwf, hone⟩
  | ok t =>
    unfold deleteEmployee at hp
    cases hfind : s.find? (fun e => e.id = eid) with
    | none => simp only [hfind] at hp; exact absurd hp (by simp)
    | some e =>
      simp only [hfind] at hp
      cases hm : e.manager with
      | none => simp only [hm] at hp; exact absurd hp (by simp)
      | some m =>
        simp only [hm] at hp
        cases hp
        have hemem : e ∈ s := List.mem_of_find?_eq_some hfind
        have heid : e.id = eid := by simpa using List.find?_some hfind
        have hsne : s ≠ [] := List.ne_nil_of_mem hemem
        have hone' : ceoCount s = 1 := hone hsne
        have hid : ∀ x : Employee,
            ((fun x => if x.manager = some eid then { x with manager := some m } else x) x).id
              = x.id := by
          intro x
          by_cases h1 : x.manager = some eid <;> simp [h1]
        refine ⟨wf_map hid (wf_filter _ hwf), fun _ => ?_⟩
        unfold ceoCount
        rw [List.countP_map]
        have hstep : (s.filter (fun x => ¬ x.id = eid)).countP
            (((fun e : Employee => decide (e.manager = none)) ∘
              (fun x => if x.manager = some eid then { x with manager := some m } else x)))
            = (s.filter (fun x => ¬ x.id = eid)).countP
              (fun x => decide (x.manager = none)) := by
          apply List.countP_congr
          intro x hx
          simp only [Function.comp, decide_eq_true_eq]
          by_cases h1 : x.manager = some eid <;> simp [h1]
        rw [hstep, List.countP_filter]
        have hcongr : ∀ x ∈ s,
            ((decide (x.manager = none) && decide (¬ x.id = eid)) = true) ↔
              (decide (x.manager = none) = true) := by
          intro x hx
          simp only [Bool.and_eq_true, decide_eq_true_eq]
          constructor
          · intro hb
            exact hb.1
          · intro hxnone
            refine ⟨hxnone, ?_⟩
            intro hxid
            have : x = e := List.inj_on_of_nodup_map hwf hx hemem (by rw [hxid, heid])
            rw [this, hm] at hxnone
            exact Option.noConfusion hxnone
        rw [List.countP_congr hcongr]
        exact hone'

/-- Every operation of the engine preserves the single-CEO invariant. -/
theorem applyOp_inv {s : Store} (op : Op) (h : Inv s) : Inv (applyOp op s) := by
  cases op with
  | promoteOp eid => exact inv_promote eid h
  | replaceOp newId email name => exact inv_replace newId email name h
  | createOp newId email name mgr => exact inv_create newId email name mgr h
  | deleteOp eid => exact inv_delete eid h

/-- Sequences of operations preserve the single-CEO invariant. -/
theorem runOps_inv (ops : List Op) {s : Store} (h : Inv s) : Inv (runOps ops s) := by
  induction ops generalizing s with
  | nil => exact h
  | cons op rest ih => exact ih (applyOp_inv op h)

/-!
### Claim theorems
-/

/-- C9: the delete-success handlers of `OrgChartPage.jsx` invoke the
identifier `loadCEO`, which is bound nowhere in the module scope (the
component destructures only `ceo`, `loading` and `error` from
`useCEO()`, whose refresh function is named `refetch`), so each handler
raises a `ReferenceError` when it runs after a successful deletion. -/
theorem orgChart_delete_handler_reference_error :
    raisesReferenceError handleEmployeeDeleteSuccessCalls orgChartPageScope = true ∧
    raisesReferenceError handleTeamDeleteSuccessCalls orgChartPageScope = true ∧
    raisesReferenceError handleDeptDeleteSuccessCalls orgChartPageScope = true ∧
    "loadCEO" ∈ handleEmployeeDeleteSuccessCalls ∧
    "loadCEO" ∉ orgChartPageScope ∧
    "refetch" ∈ useCEOReturnedFields ∧
    "refetch" ∉ orgChartDestructuredFields := by
  decide

/-- C10: `escapeCSVCell` leaves a cell unchanged unless it contains a
comma, double quote or newline, in which case it wraps the cell in
double quotes with each embedded double quote doubled; `null` and
`undefined` cells map to the empty string; and RFC 4180 parsing of the
escaped cell recovers the original cell, so escape followed by parse is
the identity on every cell. -/
theorem escapeCSVCell_roundtrip :
    (∀ s : List Char, needsQuoting s = false → escapeCSVCell s = s) ∧
    (∀ s : List Char, needsQuoting s = true →
      escapeCSVCell s = '"' :: (doubleQuotes s ++ ['"'])) ∧
    escapeCSVCellOpt none = [] ∧
    (∀ s : List Char, parseCSVCell (escapeCSVCell s) = s) := by
  refine ⟨?_, ?_, rfl, ?_⟩
  · intro s h
    simp [escapeCSVCell, h]
  · intro s h
    simp [escapeCSVCell, h]
  · intro s
    by_cases h : needsQuoting s = true
    · rw [escapeCSVCell]
      simp only [h, if_true]
      rw [parseCSVCell]
      simp [List.getLast?_concat, List.dropLast_concat, undoubleQuotes_doubleQuotes]
    · have hq : needsQuoting s = false := by simpa using h
      rw [escapeCSVCell]
      simp only [hq, Bool.false_eq_true, if_false]
      cases s with
      | nil => rfl
      | cons c t =>
        have hnq : ¬ c = '"' := by
          intro hc
          simp [needsQuoting] at hq
          exact hq.1.2.1 hc.symm
        rw [parseCSVCell]
        simp [hnq]

/-- Witness for C10 at concrete cells. -/
theorem escapeCSVCell_roundtrip_witness :
    (needsQuoting ['a', 'b'] = false ∧ escapeCSVCell ['a', 'b'] = ['a', 'b']) ∧
    (needsQuoting [',', '"'] = true ∧
      escapeCSVCell [',', '"'] = '"' :: (doubleQuotes [',', '"'] ++ ['"'])) ∧
    parseCSVCell (escapeCSVCell [',', '"']) = [',', '"'] :=
  ⟨⟨by decide, escapeCSVCell_roundtrip.1 ['a', 'b'] (by decide)⟩,
   ⟨by decide, escapeCSVCell_roundtrip.2.1 [',', '"'] (by decide)⟩,
   escapeCSVCell_roundtrip.2.2.2 [',', '"']⟩

/-- C7: every bulk import call returns a result record made of exactly
the fields `total_rows`, `successful_imports`, `failed_rows` (whose
entries each carry `row_number`, `email`, `error_message` and
`row_data`), `created_employee_ids` and `warnings`; `total_rows` is the
size of the uploaded batch. -/
theorem import_result_shape (env : ImportEnv) (batch : List Row) :
    ∃ tr si fr cids ws,
      (importEmployees env batch).2 = ⟨tr, si, fr, cids, ws⟩ ∧
      tr = batch.length ∧
      ∀ f ∈ fr, ∃ rn em msg rd, f = FailedRow.mk rn em msg rd := by
  refine ⟨(importEmployees env batch).2.total_rows,
    (importEmployees env batch).2.successful_imports,
    (importEmployees env batch).2.failed_rows,
    (importEmployees env batch).2.created_employee_ids,
    (importEmployees env batch).2.warnings, rfl, ?_, ?_⟩
  · by_cases hb : (rowErrors env batch ++ cycleErrors batch).isEmpty = true
    · simp [importEmployees, hb]
    · simp [importEmployees, hb]
  · intro f _
    exact ⟨f.row_number, f.email, f.error_message, f.row_data, rfl⟩

/-- Witness for C7 at a concrete call. -/
theorem import_result_shape_witness :
    ∃ tr si fr cids ws,
      (importEmployees ⟨[], [], []⟩ []).2 = ⟨tr, si, fr, cids, ws⟩ ∧
      tr = ([] : List Row).length ∧
      ∀ f ∈ fr, ∃ rn em msg rd, f = FailedRow.mk rn em msg rd :=
  import_result_shape ⟨[], [], []⟩ []

/-- Lookup commutes with an id-preserving rewrite of the store. -/
theorem lookupEmp_map {s : Store} {f : Employee → Employee}
    (hf : ∀ e, (f e).id = e.id) (i : Nat) :
    lookupEmp (s.map f) i = (lookupEmp s i).map f := by
  have hp : ((fun e : Employee => decide (e.id = i)) ∘ f) =
      (fun e : Employee => decide (e.id = i)) := by
    funext e
    simp [Function.comp, hf]
  unfold lookupEmp
  rw [List.find?_map, hp]

/-- C3: after a successful `replace(newEmployeeData)` with current CEO
C, C's manager is the newly created employee, every direct report of C
other than the new CEO remains a direct report of C, and every other
employee's record (in particular its manager linkage) is unchanged. -/
theorem replaceCEO_frame {s t : Store} {c : Employee} {newId : Nat} {email name : String}
    (hwf : WF s) (hceo : findCEO s = some c)
    (hok : replace newId email name s = .ok t) :
    lookupEmp t c.id = some { c with manager := some newId } ∧
    (∀ e ∈ s, e.id ≠ c.id → lookupEmp t e.id = some e) ∧
    (∀ e ∈ s, e.id ≠ c.id → e.manager = some c.id →
      (lookupEmp t e.id).map Employee.manager = some (some c.id)) := by
  have hcmem := (findCEO_mem hceo).1
  unfold replace at hok
  rw [hceo] at hok
  split at hok
  · exact absurd hok (by simp)
  split at hok
  · exact absurd hok (by simp)
  split at hok
  · exact absurd hok (by simp)
  have ht : t = s.map (fun e => if e.id = c.id then { e with manager := some newId } else e)
      ++ [⟨newId, email, name, none⟩] := by
    cases hok
    rfl
  have hid : ∀ e : Employee,
      ((fun e => if e.id = c.id then { e with manager := some newId } else e) e).id = e.id := by
    intro e
    by_cases h : e.id = c.id <;> simp [h]
  have hmap : ∀ a : Nat,
      lookupEmp t a =
        ((lookupEmp s a).map
          (fun e => if e.id = c.id then { e with manager := some newId } else e)).or
        (lookupEmp [⟨newId, email, name, none⟩] a) := by
    intro a
    rw [ht]
    show lookupEmp (_ ++ _) a = _
    unfold lookupEmp
    rw [List.find?_append]
    congr 1
    exact lookupEmp_map hid a
  refine ⟨?_, ?_, ?_⟩
  · rw [hmap c.id, lookupEmp_of_mem hwf hcmem]
    simp
  · intro e he hne
    rw [hmap e.id, lookupEmp_of_mem hwf he]
    simp [hne]
  · intro e he hne hrep
    rw [hmap e.id, lookupEmp_of_mem hwf he]
    simp [hne, hrep]

/-- Witness for C3: replacing the CEO over a two-employee store. -/
theorem replaceCEO_frame_witness :
    WF [⟨0, "jane@x.com", "Jane", none⟩, ⟨1, "john@x.com", "John", some 0⟩] ∧
    findCEO [⟨0, "jane@x.com", "Jane", none⟩, ⟨1, "john@x.com", "John", some 0⟩] =
      some ⟨0, "jane@x.com", "Jane", none⟩ ∧
    replace 2 "meg@x.com" "Meg"
      [⟨0, "jane@x.com", "Jane", none⟩, ⟨1, "john@x.com", "John", some 0⟩] =
      Except.ok [⟨0, "jane@x.com", "Jane", some 2⟩, ⟨1, "john@x.com", "John", some 0⟩,
           ⟨2, "meg@x.com", "Meg", none⟩] ∧
    lookupEmp [⟨0, "jane@x.com", "Jane", some 2⟩, ⟨1, "john@x.com", "John", some 0⟩,
           ⟨2, "meg@x.com", "Meg", none⟩] 0 = some ⟨0, "jane@x.com", "Jane", some 2⟩ ∧
    (∀ e ∈ [⟨0, "jane@x.com", "Jane", none⟩, ⟨1, "john@x.com", "John", some 0⟩],
      e.id ≠ 0 →
      lookupEmp [⟨0, "jane@x.com", "Jane", some 2⟩, ⟨1, "john@x.com", "John", some 0⟩,
           ⟨2, "meg@x.com", "Meg", none⟩] e.id = some e) :=
  ⟨by decide, by decide, by rfl,
   (@replaceCEO_frame
     [⟨0, "jane@x.com", "Jane", none⟩, ⟨1, "john@x.com", "John", some 0⟩]
     [⟨0, "jane@x.com", "Jane", some 2⟩, ⟨1, "john@x.com", "John", some 0⟩,
      ⟨2, "meg@x.com", "Meg", none⟩]
     ⟨0, "jane@x.com", "Jane", none⟩ 2 "meg@x.com" "Meg"
     (by decide) (by decide) (by rfl)).1,
   (@replaceCEO_frame
     [⟨0, "jane@x.com", "Jane", none⟩, ⟨1, "john@x.com", "John", some 0⟩]
     [⟨0, "jane@x.com", "Jane", some 2⟩, ⟨1, "john@x.com", "John", some 0⟩,
      ⟨2, "meg@x.com", "Meg", none⟩]
     ⟨0, "jane@x.com", "Jane", none⟩ 2 "meg@x.com" "Meg"
     (by decide) (by decide) (by rfl)).2.1⟩

/-- C4: after a successful `promote(employeeId)` with a current CEO C
and a distinct promoted employee, the promoted employee has a null
manager, C becomes a direct report of the promoted employee, and every
direct report of C other than the promoted employee now reports to the
promoted employee. -/
theorem promote_to_ceo_semantics {s t : Store} {c : Employee} {eid : Nat}
    (hwf : WF s) (hceo : findCEO s = some c) (hne : ¬ c.id = eid)
    (hmem : eid ∈ storeIds s)
    (hok : promote eid s = .ok t) :
    (lookupEmp t eid).map Employee.manager = some none ∧
    lookupEmp t c.id = some { c with manager := some eid } ∧
    (∀ d ∈ s, d.manager = some c.id → d.id ≠ eid →
      (lookupEmp t d.id).map Employee.manager = some (some eid)) := by
  obtain ⟨hcmem, hcnone⟩ := findCEO_mem hceo
  obtain ⟨e0, he0mem, he0id⟩ := by
    simpa [storeIds] using hmem
  have hfind : s.find? (fun e => e.id = eid) = some e0 := by
    have := lookupEmp_of_mem hwf he0mem
    unfold lookupEmp at this
    rwa [he0id] at this
  unfold promote at hok
  simp only [hfind, hceo] at hok
  rw [if_neg hne] at hok
  have ht : t = s.map (fun e =>
      if e.id = eid then { e with manager := none }
      else if e.id = c.id then { e with manager := some eid }
      else if e.manager = some c.id then { e with manager := some eid }
      else e) := by
    cases hok
    rfl
  have hid : ∀ e : Employee,
      ((fun e =>
        if e.id = eid then { e with manager := none }
        else if e.id = c.id then { e with manager := some eid }
        else if e.manager = some c.id then { e with manager := some eid }
        else e) e).id = e.id := by
    intro e
    by_cases h1 : e.id = eid
    · simp [h1]
    · by_cases h2 : e.id = c.id
      · simp [h1, h2, hne]
      · by_cases h3 : e.manager = some c.id <;> simp [h1, h2, h3]
  refine ⟨?_, ?_, ?_⟩
  · rw [ht, lookupEmp_map hid, ← he0id, lookupEmp_of_mem hwf he0mem]
    simp [he0id]
  · rw [ht, lookupEmp_map hid, lookupEmp_of_mem hwf hcmem]
    simp [hne]
  · intro d hd hdrep hdne
    have hdc : d.id ≠ c.id := by
      intro h
      have : d = c := List.inj_on_of_nodup_map hwf hd hcmem h
      rw [this, hcnone] at hdrep
      exact Option.noConfusion hdrep
    rw [ht, lookupEmp_map hid, lookupEmp_of_mem hwf hd]
    simp [hdne, hdc, hdrep]

/-- Witness for C4: the spec's Jane/John scenario — promoting the direct
report John of CEO Jane leaves John with no manager and Jane reporting
to John. -/
theorem promote_to_ceo_semantics_witness :
    WF [⟨0, "jane@x.com", "Jane", none⟩, ⟨1, "john@x.com", "John", some 0⟩] ∧
    promote 1 [⟨0, "jane@x.com", "Jane", none⟩, ⟨1, "john@x.com", "John", some 0⟩] =
      Except.ok [⟨0, "jane@x.com", "Jane", some 1⟩, ⟨1, "john@x.com", "John", none⟩] ∧
    (lookupEmp [⟨0, "jane@x.com", "Jane", some 1⟩, ⟨1, "john@x.com", "John", none⟩]
      1).map Employee.manager = some none ∧
    lookupEmp [⟨0, "jane@x.com", "Jane", some 1⟩, ⟨1, "john@x.com", "John", none⟩] 0 =
      some ⟨0, "jane@x.com", "Jane", some 1⟩ :=
  ⟨by decide, by rfl,
   (@promote_to_ceo_semantics
     [⟨0, "jane@x.com", "Jane", none⟩, ⟨1, "john@x.com", "John", some 0⟩]
     [⟨0, "jane@x.com", "Jane", some 1⟩, ⟨1, "john@x.com", "John", none⟩]
     ⟨0, "jane@x.com", "Jane", none⟩ 1
     (by decide) (by decide) (by decide) (by decide) (by rfl)).1,
   (@promote_to_ceo_semantics
     [⟨0, "jane@x.com", "Jane", none⟩, ⟨1, "john@x.com", "John", some 0⟩]
     [⟨0, "jane@x.com", "Jane", some 1⟩, ⟨1, "john@x.com", "John", none⟩]
     ⟨0, "jane@x.com", "Jane", none⟩ 1
     (by decide) (by decide) (by decide) (by decide) (by rfl)).2.1⟩

/-- C5: after a successful deletion of employee E (whose manager is M),
E is gone from the store, every direct report of E now reports to M,
and every other employee's record (in particular its manager reference)
is unchanged. -/
theorem delete_cascade_frame {s t : Store} {e : Employee} {eid m : Nat}
    (hwf : WF s) (hfind : lookupEmp s eid = some e) (hmgr : e.manager = some m)
    (hok : deleteEmployee eid s = .ok t) :
    lookupEmp t eid = none ∧
    (∀ d ∈ s, d.manager = some eid → d.id ≠ eid →
      (lookupEmp t d.id).map Employee.manager = some (some m)) ∧
    (∀ x ∈ s, x.id ≠ eid → x.manager ≠ some eid → lookupEmp t x.id = some x) := by
  unfold deleteEmployee at hok
  unfold lookupEmp at hfind
  simp only [hfind, hmgr] at hok
  have ht : t = (s.filter (fun x => ¬ x.id = eid)).map
      (fun x => if x.manager = some eid then { x with manager := some m } else x) := by
    cases hok
    rfl
  have hwff : WF (s.filter (fun x => ¬ x.id = eid)) :=
    List.Nodup.sublist (List.Sublist.map Employee.id (List.filter_sublist s)) hwf
  have hid : ∀ x : Employee,
      ((fun x => if x.manager = some eid then { x with manager := some m } else x) x).id
        = x.id := by
    intro x
    by_cases h : x.manager = some eid <;> simp [h]
  refine ⟨?_, ?_, ?_⟩
  · rw [ht, lookupEmp_map hid]
    have : lookupEmp (s.filter (fun x => ¬ x.id = eid)) eid = none := by
      unfold lookupEmp
      rw [List.find?_eq_none]
      intro x hx
      have := (List.mem_filter.mp hx).2
      simpa using this
    rw [this]
    rfl
  · intro d hd hdrep hdne
    have hdf : d ∈ s.filter (fun x => ¬ x.id = eid) :=
      List.mem_filter.mpr ⟨hd, by simpa using hdne⟩
    rw [ht, lookupEmp_map hid, lookupEmp_of_mem hwff hdf]
    simp [hdrep]
  · intro x hx hxne hxrep
    have hxf : x ∈ s.filter (fun y => ¬ y.id = eid) :=
      List.mem_filter.mpr ⟨hx, by simpa using hxne⟩
    rw [ht, lookupEmp_map hid, lookupEmp_of_mem hwff hxf]
    simp [hxrep]

/-- Witness for C5: deleting an employee with one direct report and an
untouched bystander. -/
theorem delete_cascade_frame_witness :
    WF [⟨0, "a@x.com", "A", none⟩, ⟨1, "b@x.com", "B", some 0⟩,
        ⟨2, "c@x.com", "C", some 1⟩, ⟨3, "d@x.com", "D", some 0⟩] ∧
    deleteEmployee 1 [⟨0, "a@x.com", "A", none⟩, ⟨1, "b@x.com", "B", some 0⟩,
        ⟨2, "c@x.com", "C", some 1⟩, ⟨3, "d@x.com", "D", some 0⟩] =
      Except.ok [⟨0, "a@x.com", "A", none⟩, ⟨2, "c@x.com", "C", some 0⟩,
           ⟨3, "d@x.com", "D", some 0⟩] ∧
    lookupEmp [⟨0, "a@x.com", "A", none⟩, ⟨2, "c@x.com", "C", some 0⟩,
           ⟨3, "d@x.com", "D", some 0⟩] 1 = none ∧
    (lookupEmp [⟨0, "a@x.com", "A", none⟩, ⟨2, "c@x.com", "C", some 0⟩,
           ⟨3, "d@x.com", "D", some 0⟩] 2).map Employee.manager = some (some 0) ∧
    lookupEmp [⟨0, "a@x.com", "A", none⟩, ⟨2, "c@x.com", "C", some 0⟩,
           ⟨3, "d@x.com", "D", some 0⟩] 3 = some ⟨3, "d@x.com", "D", some 0⟩ :=
  ⟨by decide, by rfl,
   (@delete_cascade_frame
     [⟨0, "a@x.com", "A", none⟩, ⟨1, "b@x.com", "B", some 0⟩,
      ⟨2, "c@x.com", "C", some 1⟩, ⟨3, "d@x.com", "D", some 0⟩]
     [⟨0, "a@x.com", "A", none⟩, ⟨2, "c@x.com", "C", some 0⟩,
      ⟨3, "d@x.com", "D", some 0⟩]
     ⟨1, "b@x.com", "B", some 0⟩ 1 0
     (by decide) (by rfl) (by rfl) (by rfl)).1,
   (@delete_cascade_frame
     [⟨0, "a@x.com", "A", none⟩, ⟨1, "b@x.com", "B", some 0⟩,
      ⟨2, "c@x.com", "C", some 1⟩, ⟨3, "d@x.com", "D", some 0⟩]
     [⟨0, "a@x.com", "A", none⟩, ⟨2, "c@x.com", "C", some 0⟩,
      ⟨3, "d@x.com", "D", some 0⟩]
     ⟨1, "b@x.com", "B", some 0⟩ 1 0
     (by decide) (by rfl) (by rfl) (by rfl)).2.1
     ⟨2, "c@x.com", "C", some 1⟩ (by decide) (by decide) (by decide),
   (@delete_cascade_frame
     [⟨0, "a@x.com", "A", none⟩, ⟨1, "b@x.com", "B", some 0⟩,
      ⟨2, "c@x.com", "C", some 1⟩, ⟨3, "d@x.com", "D", some 0⟩]
     [⟨0, "a@x.com", "A", none⟩, ⟨2, "c@x.com", "C", some 0⟩,
      ⟨3, "d@x.com", "D", some 0⟩]
     ⟨1, "b@x.com", "B", some 0⟩ 1 0
     (by decide) (by rfl) (by rfl) (by rfl)).2.2
     ⟨3, "d@x.com", "D", some 0⟩ (by decide) (by decide) (by decide)⟩

/-- C2: bulk import is all-or-nothing — whenever row-level validation or
batch dependency-cycle detection finds at least one error, the store is
left unchanged, the result reports zero successful imports, and a
non-empty per-row failure report is produced. -/
theorem bulk_import_all_or_nothing (env : ImportEnv) (batch : List Row)
    (h : rowErrors env batch ≠ [] ∨ cycleErrors batch ≠ []) :
    (importEmployees env batch).1 = env.store ∧
    (importEmployees env batch).2.successful_imports = 0 ∧
    (importEmployees env batch).2.failed_rows ≠ [] := by
  have hne : rowErrors env batch ++ cycleErrors batch ≠ [] := by
    rcases h with h | h <;> simp [h]
  have hemp : (rowErrors env batch ++ cycleErrors batch).isEmpty = false := by
    simpa [List.isEmpty_iff] using hne
  unfold importEmployees
  simp [hemp, hne]

/-- Witness for C2: a batch whose only row is missing the required name. -/
theorem bulk_import_all_or_nothing_witness :
    (rowErrors ⟨[], [], []⟩ [⟨"", "", "", "", "", "", "", "", ""⟩] ≠ [] ∨
      cycleErrors [⟨"", "", "", "", "", "", "", "", ""⟩] ≠ []) ∧
    (importEmployees ⟨[], [], []⟩ [⟨"", "", "", "", "", "", "", "", ""⟩]).1 = [] ∧
    (importEmployees ⟨[], [], []⟩
      [⟨"", "", "", "", "", "", "", "", ""⟩]).2.successful_imports = 0 ∧
    (importEmployees ⟨[], [], []⟩
      [⟨"", "", "", "", "", "", "", "", ""⟩]).2.failed_rows ≠ [] :=
  ⟨Or.inl (by decide),
   bulk_import_all_or_nothing ⟨[], [], []⟩ _ (Or.inl (by decide))⟩

/-- C8: every successful CREATE, UPDATE or DELETE mutation emits exactly
one corresponding audit entry — a lone CREATE entry on creation, a lone
UPDATE entry on a field update, and, on a cascading deletion, one UPDATE
entry per reassigned direct report plus exactly one DELETE entry for the
removed record — and every emitted entry has a null previous-state
snapshot exactly when its change type is CREATE and a null new-state
snapshot exactly when its change type is DELETE. -/
theorem audit_entry_null_pattern :
    (∀ newId email name mgr s t log,
      createWithAudit newId email name mgr s = .ok (t, log) →
      log = [auditRecord newId .CREATE none (some ⟨newId, email, name, mgr⟩)] ∧
      ∀ a ∈ log, auditNullPattern a) ∧
    (∀ eid newName s t log,
      updateWithAudit eid newName s = .ok (t, log) →
      (∃ e, lookupEmp s eid = some e ∧
        log = [auditRecord eid .UPDATE (some e) (some { e with name := newName })]) ∧
      ∀ a ∈ log, auditNullPattern a) ∧
    (∀ eid s t log,
      deleteWithAudit eid s = .ok (t, log) →
      log.countP (fun a => a.changeType = ChangeType.DELETE) = 1 ∧
      (∃ e, lookupEmp s eid = some e ∧
        log.getLast? = some (auditRecord eid .DELETE (some e) none)) ∧
      (∃ m, ∀ a ∈ log, a.changeType ≠ ChangeType.DELETE →
        ∃ d, d ∈ s ∧ d.manager = some eid ∧
          a = auditRecord d.id .UPDATE (some d) (some { d with manager := some m })) ∧
      ∀ a ∈ log, auditNullPattern a) := by
  refine ⟨?_, ?_, ?_⟩
  · intro newId email name mgr s t log h
    unfold createWithAudit at h
    cases hc : createEmployee newId email name mgr s with
    | error err => rw [hc] at h; exact absurd h (by simp [Except.map])
    | ok u =>
      rw [hc] at h
      simp only [Except.map] at h
      obtain ⟨-, hlog⟩ := Prod.mk.injEq .. ▸ Except.ok.injEq .. ▸ h
      refine ⟨hlog.symm, ?_⟩
      intro a ha
      rw [← hlog] at ha
      simp only [List.mem_singleton] at ha
      subst ha
      simp [auditNullPattern, auditRecord]
  · intro eid newName s t log h
    unfold updateWithAudit at h
    cases hfind : s.find? (fun e => e.id = eid) with
    | none => rw [hfind] at h; exact absurd h (by simp)
    | some e =>
      rw [hfind] at h
      simp only [Except.ok.injEq, Prod.mk.injEq] at h
      obtain ⟨-, hlog⟩ := h
      refine ⟨⟨e, by simpa [lookupEmp] using hfind, hlog.symm⟩, ?_⟩
      intro a ha
      rw [← hlog] at ha
      simp only [List.mem_singleton] at ha
      subst ha
      simp [auditNullPattern, auditRecord]
  · intro eid s t log h
    unfold deleteWithAudit at h
    cases hfind : s.find? (fun e => e.id = eid) with
    | none => rw [hfind] at h; exact absurd h (by simp)
    | some e =>
      simp only [hfind] at h
      cases hm : e.manager with
      | none => simp only [hm] at h; exact absurd h (by simp)
      | some m =>
        simp only [hm] at h
        simp only [Except.ok.injEq, Prod.mk.injEq] at h
        obtain ⟨-, hlog⟩ := h
        rw [← hlog]
        refine ⟨?_, ⟨e, by simpa [lookupEmp] using hfind, ?_⟩, ⟨m, ?_⟩, ?_⟩
        · rw [List.countP_append, List.countP_map]
          simp [auditRecord, Function.comp]
        · rw [List.getLast?_append]
          simp
        · intro a ha hnd
          rcases List.mem_append.mp ha with hmem | hmem
          · obtain ⟨d, hd, rfl⟩ := List.mem_map.mp hmem
            have hd1 := List.mem_filter.mp hd
            have hd2 := List.mem_filter.mp hd1.1
            exact ⟨d, hd2.1, by simpa using hd1.2, rfl⟩
          · simp only [List.mem_singleton] at hmem
            subst hmem
            simp [auditRecord] at hnd
        · intro a ha
          rcases List.mem_append.mp ha with hmem | hmem
          · obtain ⟨d, hd, rfl⟩ := List.mem_map.mp hmem
            simp [auditNullPattern, auditRecord]
          · simp only [List.mem_singleton] at hmem
            subst hmem
            simp [auditNullPattern, auditRecord]

/-- Witness for C8 at concrete mutations: a creation, a rename, and a
cascading deletion over a three-employee store. -/
theorem audit_entry_null_pattern_witness :
    ([auditRecord 5 ChangeType.CREATE none (some ⟨5, "e@x.com", "E", none⟩)] =
       [auditRecord 5 .CREATE none (some ⟨5, "e@x.com", "E", none⟩)] ∧
     ∀ a ∈ [auditRecord 5 ChangeType.CREATE none (some ⟨5, "e@x.com", "E", none⟩)],
       auditNullPattern a) ∧
    ([auditRecord 2 ChangeType.UPDATE (some ⟨2, "c@x.com", "C", some 1⟩)
        (some ⟨2, "c@x.com", "C", some 0⟩),
      auditRecord 1 ChangeType.DELETE (some ⟨1, "b@x.com", "B", some 0⟩)
        none].countP (fun a => a.changeType = ChangeType.DELETE) = 1 ∧
     (∃ e, lookupEmp [⟨0, "a@x.com", "A", none⟩, ⟨1, "b@x.com", "B", some 0⟩,
          ⟨2, "c@x.com", "C", some 1⟩] 1 = some e ∧
        [auditRecord 2 ChangeType.UPDATE (some ⟨2, "c@x.com", "C", some 1⟩)
           (some ⟨2, "c@x.com", "C", some 0⟩),
         auditRecord 1 ChangeType.DELETE (some ⟨1, "b@x.com", "B", some 0⟩)
           none].getLast? = some (auditRecord 1 .DELETE (some e) none)) ∧
     (∃ m, ∀ a ∈ [auditRecord 2 ChangeType.UPDATE (some ⟨2, "c@x.com", "C", some 1⟩)
           (some ⟨2, "c@x.com", "C", some 0⟩),
         auditRecord 1 ChangeType.DELETE (some ⟨1, "b@x.com", "B", some 0⟩) none],
       a.changeType ≠ ChangeType.DELETE →
       ∃ d, d ∈ [⟨0, "a@x.com", "A", none⟩, ⟨1, "b@x.com", "B", some 0⟩,
          ⟨2, "c@x.com", "C", some 1⟩] ∧ d.manager = some 1 ∧
         a = auditRecord d.id .UPDATE (some d) (some { d with manager := some m })) ∧
     ∀ a ∈ [auditRecord 2 ChangeType.UPDATE (some ⟨2, "c@x.com", "C", some 1⟩)
           (some ⟨2, "c@x.com", "C", some 0⟩),
         auditRecord 1 ChangeType.DELETE (some ⟨1, "b@x.com", "B", some 0⟩) none],
       auditNullPattern a) :=
  ⟨audit_entry_null_pattern.1 5 "e@x.com" "E" none []
     [⟨5, "e@x.com", "E", none⟩]
     [auditRecord 5 .CREATE none (some ⟨5, "e@x.com", "E", none⟩)] (by rfl),
   audit_entry_null_pattern.2.2 1
     [⟨0, "a@x.com", "A", none⟩, ⟨1, "b@x.com", "B", some 0⟩,
      ⟨2, "c@x.com", "C", some 1⟩]
     [⟨0, "a@x.com", "A", none⟩, ⟨2, "c@x.com", "C", some 0⟩]
     [auditRecord 2 .UPDATE (some ⟨2, "c@x.com", "C", some 1⟩)
        (some ⟨2, "c@x.com", "C", some 0⟩),
      auditRecord 1 .DELETE (some ⟨1, "b@x.com", "B", some 0⟩) none] (by rfl)⟩

/-- C1: single-CEO invariant — starting from any well-formed store that
satisfies it (the empty store included), every sequence of promote,
replace, create and delete operations leaves a store in which, once at
least one employee exists, exactly one employee has a null manager
reference. -/
theorem single_ceo_invariant (s : Store) (ops : List Op) (hs : Inv s) :
    runOps ops s ≠ [] → ceoCount (runOps ops s) = 1 :=
  (runOps_inv ops hs).2

/-- Witness for C1: from the empty store, create a CEO and a report,
then promote the report. -/
theorem single_ceo_invariant_witness :
    Inv ([] : Store) ∧
    (runOps [Op.createOp 0 "a@x.com" "A" none, Op.createOp 1 "b@x.com" "B" (some 0),
       Op.promoteOp 1] [] ≠ [] →
      ceoCount (runOps [Op.createOp 0 "a@x.com" "A" none,
        Op.createOp 1 "b@x.com" "B" (some 0), Op.promoteOp 1] []) = 1) :=
  ⟨⟨List.nodup_nil, fun h => absurd rfl h⟩,
   single_ceo_invariant []
     [Op.createOp 0 "a@x.com" "A" none, Op.createOp 1 "b@x.com" "B" (some 0),
      Op.promoteOp 1]
     ⟨List.nodup_nil, fun h => absurd rfl h⟩⟩

/-- C6: on an acyclic arena (the no-cycle invariant the stores maintain)
`wouldCreateCycle` returns true exactly when the proposed parent is the
node itself (a cycle of length one) or the node is encountered while
walking the chain of parent references starting at the proposed parent
before reaching a null parent; otherwise the edge is accepted. -/
theorem wouldCreateCycle_spec (g : Graph) (nodeId pid : Nat) (hacyc : Acyclic g) :
    wouldCreateCycle g nodeId pid =
      (decide (pid = nodeId) || chainHits g nodeId (g.length + 1) pid) := by
  unfold wouldCreateCycle
  by_cases hp : pid = nodeId
  · simp [hp]
  · rw [if_neg hp]
    rw [cycleWalk_eq_chainHits g nodeId (g.length + 1) pid []
      (reachesNone_of_acyclic hacyc pid) (by intro v hv; cases hv)]
    simp [hp]

/-- Witness for C6 on a concrete three-node chain: re-parenting the root
under a leaf is a cycle; the reverse edge and self-parenting behave as
characterized. -/
theorem wouldCreateCycle_spec_witness :
    Acyclic [(1, none), (2, some 1), (3, some 2)] ∧
    wouldCreateCycle [(1, none), (2, some 1), (3, some 2)] 1 3 =
      (decide ((3 : Nat) = 1) ||
        chainHits [(1, none), (2, some 1), (3, some 2)] 1
          ([(1, none), (2, some 1), (3, some 2)] : Graph).length.succ 3) ∧
    wouldCreateCycle [(1, none), (2, some 1), (3, some 2)] 3 1 =
      (decide ((1 : Nat) = 3) ||
        chainHits [(1, none), (2, some 1), (3, some 2)] 3
          ([(1, none), (2, some 1), (3, some 2)] : Graph).length.succ 1) ∧
    wouldCreateCycle [(1, none), (2, some 1), (3, some 2)] 1 3 = true ∧
    wouldCreateCycle [(1, none), (2, some 1), (3, some 2)] 3 1 = false ∧
    wouldCreateCycle [(1, none), (2, some 1), (3, some 2)] 2 2 = true :=
  ⟨by decide,
   wouldCreateCycle_spec [(1, none), (2, some 1), (3, some 2)] 1 3 (by decide),
   wouldCreateCycle_spec [(1, none), (2, some 1), (3, some 2)] 3 1 (by decide),
   by decide, by decide, by decide⟩

end HRIS
